import Mathlib

/-! Verification of the chunking-and-synthesis pipeline of `claude_word_qa`
(`doc_parser.py`, `anthropic_client.py`).  Python strings are modelled as
`List Char`; the Python string primitives the code uses (`split`, `strip`,
slicing, truthiness of strings) are modelled explicitly below.  The HTTP
transport is abstracted as a per-candidate outcome, and the per-chunk model
call as an oracle function threaded through the orchestrator. -/

/-- Python's ASCII whitespace predicate, as used by `str.strip()` and
`str.split()`. -/
def pyIsSpace (c : Char) : Bool :=
  c == ' ' || c == '\t' || c == '\n' || c == '\r' || c == '\x0b' || c == '\x0c'

/-- Python `s.strip()`: drop leading and trailing whitespace. -/
def pyStrip (s : List Char) : List Char :=
  ((s.dropWhile pyIsSpace).reverse.dropWhile pyIsSpace).reverse

/-- Worker for `pyWords`, accumulating the current (reversed) token. -/
def pyWordsAux : List Char → List Char → List (List Char)
  | [], acc => if acc = [] then [] else [acc.reverse]
  | c :: cs, acc =>
    if pyIsSpace c then
      if acc = [] then pyWordsAux cs [] else acc.reverse :: pyWordsAux cs []
    else pyWordsAux cs (c :: acc)

/-- Python `s.split()` with no argument: split on whitespace runs, dropping
empty tokens. -/
def pyWords (s : List Char) : List (List Char) := pyWordsAux s []

/-- Python `s.split(sep)` for a two-character separator `[a, b]` (the code
only splits on `"\n\n"` and `". "`): scan left to right for non-overlapping
occurrences, keeping empty fields. -/
def pySplit2 (a b : Char) : List Char → List (List Char)
  | [] => [[]]
  | [c] => [[c]]
  | c :: d :: rest =>
    if c = a ∧ d = b then [] :: pySplit2 a b rest
    else
      match pySplit2 a b (d :: rest) with
      | [] => [[c]]
      | t :: ts => (c :: t) :: ts

/-- Python slicing `s[:k]` for an `Int` bound: a negative bound counts from
the end of the string, clamped at zero. -/
def pySliceTo (k : Int) (s : List Char) : List Char :=
  if 0 ≤ k then s.take k.toNat else s.take (s.length - (-k).toNat)

/-- One article record as extracted upstream
(`{"title": ..., "content": ...}`). -/
structure Article where
  title : List Char
  content : List Char

/-- `doc_parser.py` line 52:
`f"Title: {article['title']}\nContent: {article['content']}"`. -/
def renderArticle (a : Article) : List Char :=
  ("Title: ").toList ++ a.title ++ ("\nContent: ").toList ++ a.content

/-- `doc_parser.py` lines 94-103: one iteration of the word-level loop.  The
state is the pair `(chunks, current_chunk)`. -/
def stepWord (B : Int) (st : List (List Char) × List Char) (w : List Char) :
    List (List Char) × List Char :=
  if (st.2.length : Int) + (w.length : Int) + 1 > B then
    if st.2 = [] then (st.1 ++ [pySliceTo B w], st.2)
    else (st.1 ++ [pyStrip st.2], w)
  else (st.1, if st.2 = [] then w else st.2 ++ ' ' :: w)

/-- `doc_parser.py` lines 86-105: one iteration of the sentence-level loop. -/
def stepSentence (B : Int) (st : List (List Char) × List Char) (s : List Char) :
    List (List Char) × List Char :=
  if (st.2.length : Int) + (s.length : Int) + 2 > B then
    if st.2 = [] then (pyWords s).foldl (stepWord B) st
    else (st.1 ++ [pyStrip st.2], s)
  else (st.1, if st.2 = [] then s else st.2 ++ '.' :: ' ' :: s)

/-- `doc_parser.py` lines 77-107: one iteration of the paragraph-level loop. -/
def stepParagraph (B : Int) (st : List (List Char) × List Char) (p : List Char) :
    List (List Char) × List Char :=
  if (st.2.length : Int) + (p.length : Int) + 2 > B then
    if st.2 = [] then (pySplit2 '.' ' ' p).foldl (stepSentence B) st
    else (st.1 ++ [pyStrip st.2], p)
  else (st.1, if st.2 = [] then p else st.2 ++ '\n' :: '\n' :: p)

/-- `doc_parser.py` lines 109-110 (and 65-66): flush the trailing
`current_chunk`, stripped, when it is non-empty. -/
def finishChunks (st : List (List Char) × List Char) : List (List Char) :=
  if st.2 = [] then st.1 else st.1 ++ [pyStrip st.2]

/-- `doc_parser.py` lines 71-112: the paragraph / sentence / word fallback
cascade used when no article list is supplied. -/
def splitFallback (content : List Char) (B : Int) : List (List Char) :=
  finishChunks ((pySplit2 '\n' '\n' content).foldl (stepParagraph B) ([], []))

/-- The recursive call `split_content_into_chunks(article_content, B)` made
on line 61 (its `articles` argument defaults to `None`). -/
def splitSub (s : List Char) (B : Int) : List (List Char) :=
  if (s.length : Int) ≤ B then [s] else splitFallback s B

/-- `doc_parser.py` lines 51-63: one iteration of the article-level loop. -/
def stepArticle (B : Int) (st : List (List Char) × List Char) (a : Article) :
    List (List Char) × List Char :=
  let ac := renderArticle a
  if (st.2.length : Int) + (ac.length : Int) + 2 > B then
    if st.2 = [] then (st.1 ++ splitSub ac B, st.2)
    else (st.1 ++ [pyStrip st.2], ac)
  else (st.1, if st.2 = [] then ac else st.2 ++ '\n' :: '\n' :: ac)

/-- `doc_parser.py` lines 47-68: the article-boundary packing path. -/
def splitArticles (arts : List Article) (B : Int) : List (List Char) :=
  finishChunks (arts.foldl (stepArticle B) ([], []))

/-- `doc_parser.py` lines 38-112: `split_content_into_chunks(content,
max_chars_per_chunk, articles)`.  `if articles:` is Python truthiness, so
both `None` and the empty list select the fallback cascade. -/
def split_content_into_chunks (content : List Char) (B : Int)
    (articles : Option (List Article)) : List (List Char) :=
  if (content.length : Int) ≤ B then [content]
  else
    match articles with
    | some (a :: rest) => splitArticles (a :: rest) B
    | _ => splitFallback content B

/-- `anthropic_client.py` line 9. -/
def MODEL_NAME_CLAUDE_4 : List Char := ("claude-sonnet-4-20250514").toList

/-- `anthropic_client.py` line 10. -/
def MODEL_NAME_CLAUDE_35 : List Char := ("claude-3-5-sonnet-20241022").toList

/-- `anthropic_client.py` lines 57-60: the ordered candidate model list,
`(model_name, model_display_name)` pairs. -/
def modelsToTry : List (List Char × List Char) :=
  [(MODEL_NAME_CLAUDE_4, ("Claude 4 Sonnet").toList),
   (MODEL_NAME_CLAUDE_35, ("Claude 3.5 Sonnet").toList)]

/-- The observable outcome of one transport attempt against one candidate
model (`anthropic_client.py` lines 71-100): a well-formed JSON response
whose `content` field is absent (`none`) or holds a list of text bodies;
an HTTP status error (529 is the overload status); a `UnicodeDecodeError`;
or any other exception. -/
inductive Outcome where
  | ok (contents : Option (List (List Char)))
  | httpStatus (code : Nat)
  | unicodeErr
  | otherErr
deriving DecidableEq

/-- Classification of the `except` arms of `anthropic_client.py` lines
82-100: every raised exception (`httpx.HTTPStatusError` with status 529 or
any other status, `UnicodeDecodeError`, any other `Exception`) hits a
`continue` and moves on to the next candidate model. -/
def isRecoverableErr : Outcome → Bool
  | .ok _ => false
  | _ => true

/-- `anthropic_client.py` lines 62-104: the candidate loop of
`ask_claude_single_chunk`, over the candidate list zipped with each
candidate's transport outcome.  A well-formed response with a non-empty
`content` array returns the first element's text, stripped (line 79); a
well-formed response with `content` absent or empty returns `None` for the
whole call (line 80); every exception falls through to the next candidate;
an exhausted list returns `None` (line 104). -/
def ask_claude_single_chunk :
    List ((List Char × List Char) × Outcome) → Option (List Char)
  | [] => none
  | (_, o) :: rest =>
    match o with
    | .ok (some (t :: _)) => some (pyStrip t)
    | .ok _ => none
    | _ => ask_claude_single_chunk rest

/-- `anthropic_client.py` line 120: `(200000 - 1000) * 4`. -/
def maxCharsPerChunk : Int := (200000 - 1000) * 4

/-- `anthropic_client.py` lines 127-133: process the chunks sequentially
(1-based index, total count), keeping responses that are truthy (non-`None`
and non-empty), in order.  `single` abstracts `ask_claude_single_chunk`
applied to `(document_chunk, chunk_number, total_chunks, max_tokens)`. -/
def collectResponses (single : List Char → Nat → Nat → Nat → Option (List Char))
    (maxTok : Nat) (chunks : List (List Char)) : List (List Char) :=
  chunks.enum.filterMap fun ic =>
    match single ic.2 (ic.1 + 1) chunks.length maxTok with
    | some t => if t = [] then none else some t
    | none => none

/-- `anthropic_client.py` line 154: joining the responses with the
separator `"\n\n---\n\n"`. -/
def combinedText (responses : List (List Char)) : List Char :=
  List.intercalate (("\n\n---\n\n").toList) responses

/-- `anthropic_client.py` lines 156-169: the synthesis prompt f-string. -/
def synthesisPrompt (responses : List (List Char)) (question : List Char) :
    List Char :=
  ("You are a helpful assistant. I have analyzed a large document by breaking it into chunks and asking the same question about each chunk. Here are the responses from each chunk:\n\n").toList
    ++ combinedText responses
    ++ ("\n\nOriginal Question: ").toList
    ++ question
    ++ ("\n\nPlease synthesize these responses into a single, coherent answer that:\n1. Combines all relevant information from all chunks\n2. Eliminates redundancy and contradictions\n3. Maintains all important citations and factual claims\n4. Stays within 500 words\n5. Provides a comprehensive answer to the original question\n\nIMPORTANT: Preserve all citations in parentheses after factual claims.").toList

/-- `anthropic_client.py` lines 149-172: `combine_chunk_responses` wraps the
partial answers in the synthesis prompt and delegates to
`ask_claude_single_chunk(original_question, synthesis_prompt, 1, 1,
max_tokens=2000)`. -/
def combine_chunk_responses
    (single : List Char → List Char → Nat → Nat → Nat → Option (List Char))
    (responses : List (List Char)) (question : List Char) :
    Option (List Char) :=
  single question (synthesisPrompt responses question) 1 1 2000

/-- `anthropic_client.py` lines 106-147 with the character budget as a
parameter: chunk the document (no articles are passed on line 121), query
each chunk, and return `None` on zero successes, the single success
verbatim, or the synthesis result for two or more successes.  The UTF-8
clean-up on lines 111-116 is the identity on well-formed strings and is
modelled as such. -/
def askClaudeWith
    (single : List Char → List Char → Nat → Nat → Nat → Option (List Char))
    (question document : List Char) (B : Int) (maxTok : Nat) :
    Option (List Char) :=
  let chunks := split_content_into_chunks document B none
  match collectResponses (single question) maxTok chunks with
  | [] => none
  | [r] => some r
  | r1 :: r2 :: rs => combine_chunk_responses single (r1 :: r2 :: rs) question

/-- `anthropic_client.py` lines 106-147: `ask_claude(question,
document_text, max_tokens=1500)`, with the hard-coded budget of line 120. -/
def ask_claude
    (single : List Char → List Char → Nat → Nat → Nat → Option (List Char))
    (question document : List Char) : Option (List Char) :=
  askClaudeWith single question document maxCharsPerChunk 1500

/-- The full word-level decomposition of a content string: words of
sentences of paragraphs, exactly as the fallback cascade enumerates them. -/
def allWords (content : List Char) : List (List Char) :=
  ((pySplit2 '\n' '\n' content).map fun p =>
    ((pySplit2 '.' ' ' p).map pyWords).flatten).flatten

/-- Erase every character that can belong to an inserted or removed
separator (`"\n\n"`, `". "`, `" "`) or to trimmed whitespace: all
whitespace and the period. -/
def scrub (s : List Char) : List Char :=
  s.filter fun c => !(pyIsSpace c || c == '.')

/-- `scrub` of a list of chunks, concatenated in order. -/
def scrubJoin (l : List (List Char)) : List Char := (l.map scrub).flatten

/-- `scrub` of a chunker state `(chunks, current_chunk)`. -/
def scrubState (st : List (List Char) × List Char) : List Char :=
  scrubJoin st.1 ++ scrub st.2

/-- Oracle for the synthesis-failure scenario: answers the chunks `"aa"`
and `"bb"` with themselves and fails on everything else (in particular on
the synthesis prompt). -/
def w4single : List Char → List Char → Nat → Nat → Nat → Option (List Char) :=
  fun _q c _i _n _mt =>
    if c = ("aa").toList ∨ c = ("bb").toList then some c else none

/-- Oracle that fails every call. -/
def w4failSingle : List Char → List Char → Nat → Nat → Nat → Option (List Char) :=
  fun _q _c _i _n _mt => none

/-- Oracle for the single-success scenario: answers only the chunk `"bb"`. -/
def w5single : List Char → List Char → Nat → Nat → Nat → Option (List Char) :=
  fun _q c _i _n _mt => if c = ("bb").toList then some c else none

/-- Oracle that answers every call with the three-character string
`"OK!"`. -/
def c2single : List Char → List Char → Nat → Nat → Nat → Option (List Char) :=
  fun _q _c _i _n _mt => some (("OK!").toList)

/-- Every candidate in the run hit one of the recoverable error arms
(overload status, other HTTP status, decode error, other exception). -/
def allRecoverable (l : List ((List Char × List Char) × Outcome)) : Prop :=
  ∀ p ∈ l, isRecoverableErr p.2 = true

/-- Some candidate, after a (possibly empty) prefix of recoverable errors,
returned a well-formed response whose `content` field is absent or empty. -/
def emptyContentCut (l : List ((List Char × List Char) × Outcome)) : Prop :=
  ∃ l1 p l2, l = l1 ++ p :: l2 ∧ allRecoverable l1 ∧
    (p.2 = Outcome.ok none ∨ p.2 = Outcome.ok (some []))

/-- A concrete per-candidate outcome assignment for the real candidate
list: the first candidate answers with a well-formed response whose
`content` array is empty, the second would answer `"hi"`. -/
def c3outcomes : List ((List Char × List Char) × Outcome) :=
  [((MODEL_NAME_CLAUDE_4, ("Claude 4 Sonnet").toList), Outcome.ok (some [])),
   ((MODEL_NAME_CLAUDE_35, ("Claude 3.5 Sonnet").toList),
     Outcome.ok (some [("hi").toList]))]

example : split_content_into_chunks (("aa\n\nbbbbbbbb").toList) 5 none
    = [("aa").toList, ("bbbbbbbb").toList] := by decide

example : split_content_into_chunks (("x").toList) 0 none = [[]] := by decide

example : split_content_into_chunks ((" \n\nbbbb").toList) 3 none
    = [[], ("bbbb").toList] := by decide

example : split_content_into_chunks (("aa\n\nbb\n\ncc").toList) 3 none
    = [("aa").toList, ("bb").toList, ("cc").toList] := by decide

/-- C8: for every content string whose length is at most the budget,
`split_content_into_chunks` returns exactly one chunk equal to the input
string (`doc_parser.py` lines 43-44), for any optional article list. -/
theorem C8_small_input_identity (content : List Char) (B : Int)
    (articles : Option (List Article)) (h : (content.length : Int) ≤ B) :
    split_content_into_chunks content B articles = [content] := by
  simp [split_content_into_chunks, h]

/-- Witness for C8 at a concrete input. -/
theorem C8_small_input_identity_witness :
    split_content_into_chunks (("hi").toList) 10 none = [("hi").toList] :=
  C8_small_input_identity (("hi").toList) 10 none (by decide)

/-- C10: a well-formed response whose `content` field is absent or empty
makes `ask_claude_single_chunk` return `None` immediately, for every
remainder of the candidate list (so no further candidate is attempted),
while a transport error such as an HTTP status advances to the remaining
candidates. -/
theorem C10_empty_content_aborts (m : List Char × List Char)
    (rest : List ((List Char × List Char) × Outcome)) (c : Nat) :
    ask_claude_single_chunk ((m, Outcome.ok none) :: rest) = none ∧
    ask_claude_single_chunk ((m, Outcome.ok (some [])) :: rest) = none ∧
    ask_claude_single_chunk ((m, Outcome.httpStatus c) :: rest)
      = ask_claude_single_chunk rest := by
  obtain ⟨mn, md⟩ := m
  exact ⟨rfl, rfl, rfl⟩

/-- C1: the chunker violates boundedness.  On content `"aa\n\nbbbbbbbb"`
with budget 5 it returns the chunk `"bbbbbbbb"` of length 8 > 5: an
over-long paragraph assigned to a non-empty accumulator is flushed later
without being split (`doc_parser.py` lines 79-82), although the docstring
says chunks fit within the limit and the comments say over-long paragraphs
are split further. -/
theorem C1_overlong_chunk_eval :
    split_content_into_chunks (("aa\n\nbbbbbbbb").toList) 5 none
      = [("aa").toList, ("bbbbbbbb").toList] ∧
    ((("bbbbbbbb").toList).length : Int) > 5 := by decide

/-- C2: `ask_claude` returns a bare optional answer string, not a pair of
an answer and a TechnicalDetails record: with an oracle that answers every
call with `"OK!"`, the whole pipeline result is the string `"OK!"` itself
(the caller `cli.py` line 108 unpacks `answer, technical_details = result`
and would fail on this value). -/
theorem C2_return_shape_eval :
    ask_claude c2single (("Q").toList) (("doc").toList)
      = some (("OK!").toList) := by decide

/-- C3 counterexample: the invoker returns the failure result even though
not every candidate in the list has failed.  With the real candidate list,
an empty-content response from the first candidate and a succeeding second
candidate, the call returns `None` although the second candidate's outcome
is a success outcome (it answers `"hi"` when attempted) and is not one of
the recoverable errors. -/
theorem C3_short_circuit_counterexample :
    ask_claude_single_chunk c3outcomes = none ∧
    ask_claude_single_chunk (c3outcomes.drop 1) = some (("hi").toList) ∧
    isRecoverableErr (Outcome.ok (some [("hi").toList])) = false := by decide

/-- C6 counterexample: with budget 0 and content `"x"` the chunker does not
fail fast with a configuration error; it proceeds and returns the single
chunk `""` (the word `"x"` hard-truncated by the Python slice `word[:0]`,
`doc_parser.py` line 101). -/
theorem C6_no_failfast_counterexample :
    split_content_into_chunks (("x").toList) 0 none = [[]] := by decide

/-- C9 counterexample: for the non-empty content `" \n\nbbbb"` and the
positive budget 3, the chunker returns the empty chunk `""` (a
whitespace-only paragraph flushed through `current_chunk.strip()`,
`doc_parser.py` line 81), refuting the claim that every chunk for
non-empty input is non-empty. -/
theorem C9_empty_chunk_counterexample :
    split_content_into_chunks ((" \n\nbbbb").toList) 3 none
      = [[], ("bbbb").toList] ∧
    ([] : List Char) ∈ split_content_into_chunks ((" \n\nbbbb").toList) 3 none ∧
    (0 : Int) < 3 ∧ (" \n\nbbbb").toList ≠ [] := by decide

/-- C4: the pipeline answer is `None` when zero chunks produce a successful
answer, and also `None` when two or more chunks succeed but the synthesis
call fails; the successful partial answers are never returned as a
fallback. -/
theorem C4_failure_propagation
    (single : List Char → List Char → Nat → Nat → Nat → Option (List Char))
    (q doc : List Char) (B : Int) (mt : Nat) :
    (collectResponses (single q) mt (split_content_into_chunks doc B none) = [] →
      askClaudeWith single q doc B mt = none) ∧
    (∀ r1 r2 rs,
      collectResponses (single q) mt (split_content_into_chunks doc B none)
        = r1 :: r2 :: rs →
      single q (synthesisPrompt (r1 :: r2 :: rs) q) 1 1 2000 = none →
      askClaudeWith single q doc B mt = none) := by
  constructor
  · intro h
    simp only [askClaudeWith, h]
  · intro r1 r2 rs h hs
    simp only [askClaudeWith, h, combine_chunk_responses, hs]

/-- Witness for C4: a three-chunk run where every chunk fails, and a
three-chunk run where two chunks succeed but the synthesis call fails;
both end with no final answer. -/
theorem C4_failure_propagation_witness :
    askClaudeWith w4failSingle (("q").toList) (("aa\n\nbb\n\ncc").toList) 3 5
      = none ∧
    askClaudeWith w4single (("q").toList) (("aa\n\nbb\n\ncc").toList) 3 5
      = none := by
  constructor
  · exact (C4_failure_propagation w4failSingle (("q").toList)
      (("aa\n\nbb\n\ncc").toList) 3 5).1 (by decide)
  · exact (C4_failure_propagation w4single (("q").toList)
      (("aa\n\nbb\n\ncc").toList) 3 5).2 (("aa").toList) (("bb").toList) []
      (by decide) (by decide)

/-- C5: when the list of successful per-chunk answers is exactly one
answer, the pipeline returns that answer verbatim, for every oracle —
in particular whatever the oracle would reply to the synthesis prompt, so
synthesis is never consulted for a single partial answer. -/
theorem C5_single_passthrough
    (single : List Char → List Char → Nat → Nat → Nat → Option (List Char))
    (q doc : List Char) (B : Int) (mt : Nat) (r : List Char)
    (h : collectResponses (single q) mt (split_content_into_chunks doc B none)
      = [r]) :
    askClaudeWith single q doc B mt = some r := by
  simp only [askClaudeWith, h]

/-- Witness for C5: three chunks, exactly one of which succeeds; the
pipeline returns that chunk's answer verbatim. -/
theorem C5_single_passthrough_witness :
    askClaudeWith w5single (("q").toList) (("aa\n\nbb\n\ncc").toList) 3 5
      = some (("bb").toList) :=
  C5_single_passthrough w5single (("q").toList) (("aa\n\nbb\n\ncc").toList) 3 5
    (("bb").toList) (by decide)

/-- The failure characterization is invariant under dropping a head
candidate whose outcome is a recoverable error. -/
theorem failCondition_cons_err (m : List Char × List Char) (o : Outcome)
    (rest : List ((List Char × List Char) × Outcome))
    (ho : isRecoverableErr o = true) :
    (allRecoverable ((m, o) :: rest) ∨ emptyContentCut ((m, o) :: rest)) ↔
      (allRecoverable rest ∨ emptyContentCut rest) := by
  constructor
  · rintro (hall | ⟨l1, p, l2, heq, hpre, hp⟩)
    · exact Or.inl fun q hq => hall q (List.mem_cons_of_mem _ hq)
    · cases l1 with
      | nil =>
        simp only [List.nil_append, List.cons.injEq] at heq
        obtain ⟨h1, -⟩ := heq
        exfalso
        have hop : o = p.2 := by rw [← h1]
        rw [hop] at ho
        rcases hp with hp | hp <;> rw [hp] at ho <;>
          simp [isRecoverableErr] at ho
      | cons q l1' =>
        simp only [List.cons_append, List.cons.injEq] at heq
        obtain ⟨hq, hrest⟩ := heq
        exact Or.inr ⟨l1', p, l2, hrest,
          fun r hr => hpre r (List.mem_cons_of_mem _ hr), hp⟩
  · rintro (hall | ⟨l1, p, l2, heq, hpre, hp⟩)
    · refine Or.inl fun q hq => ?_
      rcases List.mem_cons.mp hq with h | h
      · rw [h]
        exact ho
      · exact hall q h
    · refine Or.inr ⟨(m, o) :: l1, p, l2, by rw [heq, List.cons_append], ?_, hp⟩
      intro r hr
      rcases List.mem_cons.mp hr with h | h
      · rw [h]
        exact ho
      · exact hpre r h

/-- C3 amended: the invoker advances strictly through the candidate list —
dropping a candidate whose outcome is a recoverable error (overload status,
other transport/protocol error, decode error) leaves the result unchanged,
so each candidate is attempted at most once, in list order — and the
failure result `None` is returned exactly when either every candidate hit a
recoverable error, or some candidate, after recoverable errors only,
returned a well-formed response with absent or empty content (the
remaining candidates then going unattempted). -/
theorem C3_fallback_amended :
    (∀ (p : (List Char × List Char) × Outcome)
        (l : List ((List Char × List Char) × Outcome)),
      isRecoverableErr p.2 = true →
      ask_claude_single_chunk (p :: l) = ask_claude_single_chunk l) ∧
    (∀ l : List ((List Char × List Char) × Outcome),
      ask_claude_single_chunk l = none ↔
        (allRecoverable l ∨ emptyContentCut l)) := by
  constructor
  · rintro ⟨m, o⟩ l h
    cases o with
    | ok c => simp [isRecoverableErr] at h
    | httpStatus c => rfl
    | unicodeErr => rfl
    | otherErr => rfl
  · intro l
    induction l with
    | nil =>
      constructor
      · intro _
        exact Or.inl fun p hp => absurd hp (List.not_mem_nil p)
      · intro _
        rfl
    | cons hd rest ih =>
      obtain ⟨m, o⟩ := hd
      cases o with
      | ok c =>
        cases c with
        | none =>
          constructor
          · intro _
            exact Or.inr ⟨[], (m, Outcome.ok none), rest, rfl,
              fun p hp => absurd hp (List.not_mem_nil p), Or.inl rfl⟩
          · intro _
            rfl
        | some ts =>
          cases ts with
          | nil =>
            constructor
            · intro _
              exact Or.inr ⟨[], (m, Outcome.ok (some [])), rest, rfl,
                fun p hp => absurd hp (List.not_mem_nil p), Or.inr rfl⟩
            · intro _
              rfl
          | cons t ts =>
            constructor
            · intro h
              exact absurd h (by simp [ask_claude_single_chunk])
            · rintro (hall | ⟨l1, p, l2, heq, hpre, hp⟩)
              · have hm := hall (m, Outcome.ok (some (t :: ts)))
                  (List.mem_cons_self _ _)
                simp [isRecoverableErr] at hm
              · exfalso
                cases l1 with
                | nil =>
                  simp only [List.nil_append, List.cons.injEq] at heq
                  obtain ⟨h1, -⟩ := heq
                  rcases hp with hp | hp <;> rw [← h1] at hp <;> simp at hp
                | cons q l1' =>
                  simp only [List.cons_append, List.cons.injEq] at heq
                  obtain ⟨hq, -⟩ := heq
                  have := hpre q (List.mem_cons_self _ _)
                  rw [← hq] at this
                  simp [isRecoverableErr] at this
      | httpStatus c =>
        have hadv : ask_claude_single_chunk ((m, Outcome.httpStatus c) :: rest)
            = ask_claude_single_chunk rest := rfl
        rw [hadv, ih]
        exact (failCondition_cons_err m (Outcome.httpStatus c) rest rfl).symm
      | unicodeErr =>
        have hadv : ask_claude_single_chunk ((m, Outcome.unicodeErr) :: rest)
            = ask_claude_single_chunk rest := rfl
        rw [hadv, ih]
        exact (failCondition_cons_err m Outcome.unicodeErr rest rfl).symm
      | otherErr =>
        have hadv : ask_claude_single_chunk ((m, Outcome.otherErr) :: rest)
            = ask_claude_single_chunk rest := rfl
        rw [hadv, ih]
        exact (failCondition_cons_err m Outcome.otherErr rest rfl).symm

/-- Witness for C3 amended: a 529-overloaded first candidate advances to
the second candidate, and a run whose only candidate hits a non-overload
transport error returns `None`. -/
theorem C3_fallback_amended_witness :
    ask_claude_single_chunk
        (((MODEL_NAME_CLAUDE_4, ("Claude 4 Sonnet").toList),
            Outcome.httpStatus 529) :: c3outcomes.drop 1)
      = ask_claude_single_chunk (c3outcomes.drop 1) ∧
    ask_claude_single_chunk
        [((MODEL_NAME_CLAUDE_4, ("Claude 4 Sonnet").toList),
            Outcome.httpStatus 500)] = none := by
  constructor
  · exact C3_fallback_amended.1 _ _ (by decide)
  · refine (C3_fallback_amended.2 _).mpr (Or.inl ?_)
    intro p hp
    rw [List.mem_singleton] at hp
    subst hp
    rfl

/-- With a non-positive budget the word-level condition always fires on an
empty accumulator, so every word is appended hard-truncated. -/
theorem stepWord_nonpos (B : Int) (hB : B ≤ 0) (chunks : List (List Char))
    (w : List Char) :
    stepWord B (chunks, []) w = (chunks ++ [pySliceTo B w], []) := by
  unfold stepWord
  dsimp only
  have h1 : ((([] : List Char).length : Int) + (w.length : Int) + 1 > B) := by
    simp only [List.length_nil, Nat.cast_zero]
    omega
  rw [if_pos h1, if_pos rfl]

/-- Folding the word loop with a non-positive budget truncates every word. -/
theorem foldWords_nonpos (B : Int) (hB : B ≤ 0) (ws : List (List Char))
    (chunks : List (List Char)) :
    ws.foldl (stepWord B) (chunks, [])
      = (chunks ++ ws.map (pySliceTo B), []) := by
  induction ws generalizing chunks with
  | nil => simp
  | cons w ws ih =>
    rw [List.foldl_cons, stepWord_nonpos B hB, ih]
    simp

/-- With a non-positive budget the sentence-level condition always fires on
an empty accumulator and falls to the word loop. -/
theorem stepSentence_nonpos (B : Int) (hB : B ≤ 0) (chunks : List (List Char))
    (s : List Char) :
    stepSentence B (chunks, []) s
      = (chunks ++ (pyWords s).map (pySliceTo B), []) := by
  unfold stepSentence
  dsimp only
  have h1 : ((([] : List Char).length : Int) + (s.length : Int) + 2 > B) := by
    simp only [List.length_nil, Nat.cast_zero]
    omega
  rw [if_pos h1, if_pos rfl, foldWords_nonpos B hB]

/-- Folding the sentence loop with a non-positive budget. -/
theorem foldSentences_nonpos (B : Int) (hB : B ≤ 0) (ss : List (List Char))
    (chunks : List (List Char)) :
    ss.foldl (stepSentence B) (chunks, [])
      = (chunks ++ (ss.map fun s => (pyWords s).map (pySliceTo B)).flatten,
         []) := by
  induction ss generalizing chunks with
  | nil => simp
  | cons s ss ih =>
    rw [List.foldl_cons, stepSentence_nonpos B hB, ih]
    simp

/-- With a non-positive budget the paragraph-level condition always fires on
an empty accumulator and falls to the sentence loop. -/
theorem stepParagraph_nonpos (B : Int) (hB : B ≤ 0) (chunks : List (List Char))
    (p : List Char) :
    stepParagraph B (chunks, []) p
      = (chunks ++ ((pySplit2 '.' ' ' p).map fun s =>
          (pyWords s).map (pySliceTo B)).flatten, []) := by
  unfold stepParagraph
  dsimp only
  have h1 : ((([] : List Char).length : Int) + (p.length : Int) + 2 > B) := by
    simp only [List.length_nil, Nat.cast_zero]
    omega
  rw [if_pos h1, if_pos rfl, foldSentences_nonpos B hB]

/-- Folding the paragraph loop with a non-positive budget. -/
theorem foldParagraphs_nonpos (B : Int) (hB : B ≤ 0) (ps : List (List Char))
    (chunks : List (List Char)) :
    ps.foldl (stepParagraph B) (chunks, [])
      = (chunks ++ (ps.map fun p => ((pySplit2 '.' ' ' p).map fun s =>
          (pyWords s).map (pySliceTo B)).flatten).flatten, []) := by
  induction ps generalizing chunks with
  | nil => simp
  | cons p ps ih =>
    rw [List.foldl_cons, stepParagraph_nonpos B hB, ih]
    simp

/-- C6 amended: for a non-positive budget the chunker does not fail fast
with a configuration error; whenever the content is longer than the budget
(and no articles are supplied) it proceeds normally and returns exactly the
Python hard-truncations `word[:budget]` of every word of the content, in
order — all empty strings when the budget is zero. -/
theorem C6_truncation_amended (content : List Char) (B : Int)
    (hB : B ≤ 0) (h : B < (content.length : Int)) :
    split_content_into_chunks content B none
      = (allWords content).map (pySliceTo B) := by
  unfold split_content_into_chunks
  rw [if_neg (by omega)]
  show splitFallback content B = _
  unfold splitFallback
  rw [foldParagraphs_nonpos B hB]
  unfold finishChunks
  dsimp only
  rw [if_pos rfl]
  unfold allWords
  simp [List.map_flatten, List.map_map, Function.comp_def]

/-- Witness for C6 amended at budget 0 and content `"ab x"`: the result is
two empty chunks, the two words truncated to zero characters. -/
theorem C6_truncation_amended_witness :
    split_content_into_chunks (("ab x").toList) 0 none = [[], []] := by
  rw [C6_truncation_amended (("ab x").toList) 0 (by decide) (by decide)]
  decide

/-- A list with no leading run of `p`-characters keeps that property after
its trailing run of `p`-characters is removed. -/
theorem dropWhile_rstrip (p : Char → Bool) (l : List Char)
    (h : l.dropWhile p = l) :
    ((l.reverse.dropWhile p).reverse).dropWhile p
      = (l.reverse.dropWhile p).reverse := by
  cases l with
  | nil => simp
  | cons c l' =>
    have hc : p c = false := by
      by_cases hp : p c = true
      · rw [List.dropWhile_cons, if_pos hp] at h
        have hlen := congrArg List.length h
        have hle := (List.dropWhile_sublist (l := l') (p := p)).length_le
        simp at hlen
        omega
      · simp at hp
        exact hp
    rw [List.reverse_cons, List.dropWhile_append]
    by_cases he : (l'.reverse.dropWhile p).isEmpty
    · rw [if_pos he]
      simp [List.dropWhile_cons, hc]
    · rw [if_neg he]
      simp [List.reverse_append, List.dropWhile_cons, hc]

/-- The output of `pyStrip` has no leading whitespace. -/
theorem pyStrip_dropWhile (s : List Char) :
    (pyStrip s).dropWhile pyIsSpace = pyStrip s := by
  unfold pyStrip
  exact dropWhile_rstrip pyIsSpace (s.dropWhile pyIsSpace)
    (List.dropWhile_idempotent _ _)

/-- The output of `pyStrip` has no trailing whitespace. -/
theorem pyStrip_reverse_dropWhile (s : List Char) :
    (pyStrip s).reverse.dropWhile pyIsSpace = (pyStrip s).reverse := by
  unfold pyStrip
  rw [List.reverse_reverse]
  exact List.dropWhile_idempotent _ _

/-- Stripping is idempotent. -/
theorem pyStrip_idem (s : List Char) : pyStrip (pyStrip s) = pyStrip s := by
  calc pyStrip (pyStrip s)
      = (((pyStrip s).dropWhile pyIsSpace).reverse.dropWhile pyIsSpace).reverse :=
        rfl
    _ = ((pyStrip s).reverse.dropWhile pyIsSpace).reverse := by
        rw [pyStrip_dropWhile]
    _ = ((pyStrip s).reverse).reverse := by rw [pyStrip_reverse_dropWhile]
    _ = pyStrip s := List.reverse_reverse _

/-- A string with no whitespace characters at all is fixed by `pyStrip`. -/
theorem pyStrip_of_noSpace (c : List Char)
    (h : ∀ x ∈ c, pyIsSpace x = false) : pyStrip c = c := by
  have h1 : c.dropWhile pyIsSpace = c := by
    cases c with
    | nil => rfl
    | cons x xs => simp [List.dropWhile_cons, h x (List.mem_cons_self _ _)]
  have h2 : c.reverse.dropWhile pyIsSpace = c.reverse := by
    cases hr : c.reverse with
    | nil => rfl
    | cons x xs =>
      have hx : x ∈ c := by
        rw [← List.mem_reverse, hr]
        exact List.mem_cons_self _ _
      simp [List.dropWhile_cons, h x hx]
  unfold pyStrip
  rw [h1, h2, List.reverse_reverse]

/-- Every token produced by `pyWordsAux` from a whitespace-free accumulator
is whitespace-free. -/
theorem pyWordsAux_noSpace (s : List Char) :
    ∀ acc, (∀ x ∈ acc, pyIsSpace x = false) →
      ∀ w ∈ pyWordsAux s acc, ∀ x ∈ w, pyIsSpace x = false := by
  induction s with
  | nil =>
    intro acc hacc w hw x hx
    unfold pyWordsAux at hw
    by_cases h : acc = []
    · rw [if_pos h] at hw
      exact absurd hw (List.not_mem_nil w)
    · rw [if_neg h] at hw
      rw [List.mem_singleton] at hw
      subst hw
      exact hacc x (List.mem_reverse.mp hx)
  | cons c cs ih =>
    intro acc hacc w hw x hx
    unfold pyWordsAux at hw
    by_cases hc : pyIsSpace c = true
    · rw [if_pos hc] at hw
      by_cases h : acc = []
      · rw [if_pos h] at hw
        exact ih [] (fun y hy => absurd hy (List.not_mem_nil y)) w hw x hx
      · rw [if_neg h] at hw
        rcases List.mem_cons.mp hw with h1 | h1
        · subst h1
          exact hacc x (List.mem_reverse.mp hx)
        · exact ih [] (fun y hy => absurd hy (List.not_mem_nil y)) w h1 x hx
    · rw [if_neg hc] at hw
      refine ih (c :: acc) ?_ w hw x hx
      intro y hy
      rcases List.mem_cons.mp hy with h1 | h1
      · subst h1
        simp at hc
        exact hc
      · exact hacc y h1

/-- Every word of `pyWords` is whitespace-free. -/
theorem pyWords_noSpace (s : List Char) :
    ∀ w ∈ pyWords s, ∀ x ∈ w, pyIsSpace x = false :=
  pyWordsAux_noSpace s [] (fun y hy => absurd hy (List.not_mem_nil y))

/-- A character of a Python slice is a character of the sliced string. -/
theorem mem_pySliceTo {x : Char} {B : Int} {w : List Char}
    (h : x ∈ pySliceTo B w) : x ∈ w := by
  unfold pySliceTo at h
  split at h <;> exact List.take_subset _ _ h

/-- The word loop preserves strippedness of all emitted chunks. -/
theorem stepWord_stripped (B : Int) (st : List (List Char) × List Char)
    (w : List Char) (hw : ∀ x ∈ w, pyIsSpace x = false)
    (h : ∀ c ∈ st.1, pyStrip c = c) :
    ∀ c ∈ (stepWord B st w).1, pyStrip c = c := by
  unfold stepWord
  split_ifs with h1 h2 <;> intro c hc
  · rcases List.mem_append.mp hc with h3 | h3
    · exact h c h3
    · rw [List.mem_singleton] at h3
      subst h3
      exact pyStrip_of_noSpace _ (fun x hx => hw x (mem_pySliceTo hx))
  · rcases List.mem_append.mp hc with h3 | h3
    · exact h c h3
    · rw [List.mem_singleton] at h3
      subst h3
      exact pyStrip_idem st.2
  · exact h c hc
  · exact h c hc

/-- The word fold preserves strippedness. -/
theorem foldWords_stripped (B : Int) (ws : List (List Char))
    (hws : ∀ w ∈ ws, ∀ x ∈ w, pyIsSpace x = false) :
    ∀ st : List (List Char) × List Char, (∀ c ∈ st.1, pyStrip c = c) →
      ∀ c ∈ (ws.foldl (stepWord B) st).1, pyStrip c = c := by
  induction ws with
  | nil =>
    intro st h
    exact h
  | cons w ws ih =>
    intro st h
    rw [List.foldl_cons]
    exact ih (fun w' hw' => hws w' (List.mem_cons_of_mem _ hw'))
      (stepWord B st w)
      (stepWord_stripped B st w (hws w (List.mem_cons_self _ _)) h)

/-- The sentence loop preserves strippedness. -/
theorem stepSentence_stripped (B : Int) (st : List (List Char) × List Char)
    (s : List Char) (h : ∀ c ∈ st.1, pyStrip c = c) :
    ∀ c ∈ (stepSentence B st s).1, pyStrip c = c := by
  unfold stepSentence
  split_ifs with h1 h2 <;> intro c hc
  · exact foldWords_stripped B (pyWords s) (pyWords_noSpace s) st h c hc
  · rcases List.mem_append.mp hc with h3 | h3
    · exact h c h3
    · rw [List.mem_singleton] at h3
      subst h3
      exact pyStrip_idem st.2
  · exact h c hc
  · exact h c hc

/-- The sentence fold preserves strippedness. -/
theorem foldSentences_stripped (B : Int) (ss : List (List Char)) :
    ∀ st : List (List Char) × List Char, (∀ c ∈ st.1, pyStrip c = c) →
      ∀ c ∈ (ss.foldl (stepSentence B) st).1, pyStrip c = c := by
  induction ss with
  | nil =>
    intro st h
    exact h
  | cons s ss ih =>
    intro st h
    rw [List.foldl_cons]
    exact ih (stepSentence B st s) (stepSentence_stripped B st s h)

/-- The paragraph loop preserves strippedness. -/
theorem stepParagraph_stripped (B : Int) (st : List (List Char) × List Char)
    (p : List Char) (h : ∀ c ∈ st.1, pyStrip c = c) :
    ∀ c ∈ (stepParagraph B st p).1, pyStrip c = c := by
  unfold stepParagraph
  split_ifs with h1 h2 <;> intro c hc
  · exact foldSentences_stripped B (pySplit2 '.' ' ' p) st h c hc
  · rcases List.mem_append.mp hc with h3 | h3
    · exact h c h3
    · rw [List.mem_singleton] at h3
      subst h3
      exact pyStrip_idem st.2
  · exact h c hc
  · exact h c hc

/-- The paragraph fold preserves strippedness. -/
theorem foldParagraphs_stripped (B : Int) (ps : List (List Char)) :
    ∀ st : List (List Char) × List Char, (∀ c ∈ st.1, pyStrip c = c) →
      ∀ c ∈ (ps.foldl (stepParagraph B) st).1, pyStrip c = c := by
  induction ps with
  | nil =>
    intro st h
    exact h
  | cons p ps ih =>
    intro st h
    rw [List.foldl_cons]
    exact ih (stepParagraph B st p) (stepParagraph_stripped B st p h)

/-- The final flush preserves strippedness. -/
theorem finishChunks_stripped (st : List (List Char) × List Char)
    (h : ∀ c ∈ st.1, pyStrip c = c) :
    ∀ c ∈ finishChunks st, pyStrip c = c := by
  unfold finishChunks
  split_ifs with h1 <;> intro c hc
  · exact h c hc
  · rcases List.mem_append.mp hc with h3 | h3
    · exact h c h3
    · rw [List.mem_singleton] at h3
      subst h3
      exact pyStrip_idem st.2

/-- C9 amended: for every content string and positive budget with no
articles, when the content is longer than the budget every returned chunk
is free of leading and trailing whitespace (though a chunk may be the
empty string when a whitespace-only fragment is flushed), and when the
content fits within the budget the single returned chunk is the content
verbatim — in particular a single empty chunk for empty input. -/
theorem C9_trimmed_amended (content : List Char) (B : Int) (_hB : 0 < B) :
    ((B < (content.length : Int)) →
      ∀ c ∈ split_content_into_chunks content B none, pyStrip c = c) ∧
    (((content.length : Int) ≤ B) →
      split_content_into_chunks content B none = [content]) := by
  constructor
  · intro h c hc
    unfold split_content_into_chunks at hc
    rw [if_neg (by omega)] at hc
    have hc2 : c ∈ splitFallback content B := hc
    unfold splitFallback at hc2
    exact finishChunks_stripped _
      (foldParagraphs_stripped B (pySplit2 '\n' '\n' content) ([], [])
        (fun c' hc' => absurd hc' (List.not_mem_nil c'))) c hc2
  · intro h
    simp [split_content_into_chunks, h]

/-- Witness for C9 amended: in the run on `"aaaa\n\nbb"` with budget 3 the
returned chunk `"aaa"` is fixed by stripping, and content `"ab"` within
budget 5 is returned verbatim. -/
theorem C9_trimmed_amended_witness :
    pyStrip (("aaa").toList) = ("aaa").toList ∧
    split_content_into_chunks (("ab").toList) 5 none = [("ab").toList] := by
  constructor
  · exact (C9_trimmed_amended (("aaaa\n\nbb").toList) 3 (by decide)).1
      (by decide) (("aaa").toList) (by decide)
  · exact (C9_trimmed_amended (("ab").toList) 5 (by decide)).2 (by decide)

/-- `scrub` distributes over concatenation. -/
theorem scrub_append (x y : List Char) :
    scrub (x ++ y) = scrub x ++ scrub y := by
  simp [scrub]

/-- `scrub` splits off the head character. -/
theorem scrub_cons (c : Char) (s : List Char) :
    scrub (c :: s) = scrub [c] ++ scrub s := by
  simp only [scrub, List.filter_cons]
  split_ifs <;> simp

/-- A separator character (whitespace or period) is erased by `scrub`. -/
theorem scrub_cons_sep (c : Char) (h : (pyIsSpace c || c == '.') = true)
    (s : List Char) : scrub (c :: s) = scrub s := by
  have hc : (!(pyIsSpace c || c == '.')) = false := by
    rw [h]
    rfl
  unfold scrub
  rw [List.filter_cons, hc]
  simp

/-- `scrub` commutes with reversal. -/
theorem scrub_reverse (s : List Char) :
    scrub s.reverse = (scrub s).reverse := by
  simp [scrub, List.filter_reverse]

/-- Dropping leading whitespace does not change `scrub`. -/
theorem scrub_dropWhile_space (l : List Char) :
    scrub (l.dropWhile pyIsSpace) = scrub l := by
  induction l with
  | nil => rfl
  | cons c cs ih =>
    by_cases hc : pyIsSpace c = true
    · rw [List.dropWhile_cons, if_pos hc, ih, scrub_cons_sep c (by simp [hc])]
    · rw [List.dropWhile_cons, if_neg hc]

/-- Stripping does not change `scrub`. -/
theorem scrub_pyStrip (s : List Char) : scrub (pyStrip s) = scrub s := by
  unfold pyStrip
  rw [scrub_reverse, scrub_dropWhile_space, scrub_reverse,
    List.reverse_reverse, scrub_dropWhile_space]

/-- `scrubJoin` distributes over concatenation. -/
theorem scrubJoin_append (l1 l2 : List (List Char)) :
    scrubJoin (l1 ++ l2) = scrubJoin l1 ++ scrubJoin l2 := by
  simp [scrubJoin]

/-- `scrubJoin` splits off the head chunk. -/
theorem scrubJoin_cons (x : List Char) (l : List (List Char)) :
    scrubJoin (x :: l) = scrub x ++ scrubJoin l := by
  simp [scrubJoin]

/-- Splitting on whitespace loses only whitespace: the scrubbed tokens of
`pyWordsAux`, concatenated, give the scrubbed input (after the scrubbed
accumulator). -/
theorem scrub_pyWordsAux (s : List Char) :
    ∀ acc, scrubJoin (pyWordsAux s acc) = scrub acc.reverse ++ scrub s := by
  induction s with
  | nil =>
    intro acc
    unfold pyWordsAux
    by_cases h : acc = []
    · subst h
      simp [scrubJoin, scrub]
    · rw [if_neg h]
      simp [scrubJoin, scrub]
  | cons c cs ih =>
    intro acc
    unfold pyWordsAux
    by_cases hc : pyIsSpace c = true
    · rw [if_pos hc]
      by_cases h : acc = []
      · rw [if_pos h, ih [], h]
        rw [scrub_cons_sep c (by simp [hc])]
      · rw [if_neg h, scrubJoin_cons, ih []]
        rw [scrub_cons_sep c (by simp [hc])]
        simp [scrub]
    · rw [if_neg hc, ih (c :: acc), List.reverse_cons, scrub_append,
        scrub_cons c cs]
      simp [List.append_assoc]

/-- Splitting on whitespace loses only whitespace. -/
theorem scrub_pyWords (s : List Char) : scrubJoin (pyWords s) = scrub s := by
  unfold pyWords
  rw [scrub_pyWordsAux s []]
  simp [scrub]

/-- The two-character split never returns the empty list of fields. -/
theorem pySplit2_ne_nil (a b : Char) (s : List Char) : pySplit2 a b s ≠ [] := by
  cases s with
  | nil => simp [pySplit2]
  | cons c s' =>
    cases s' with
    | nil => simp [pySplit2]
    | cons d rest =>
      simp only [pySplit2]
      split_ifs with h
      · simp
      · rcases heq : pySplit2 a b (d :: rest) with _ | ⟨t, ts⟩
        · simp
        · simp

/-- Splitting on a two-character separator loses only separator
occurrences: when both separator characters are erased by `scrub`, the
scrubbed fields concatenate to the scrubbed input. -/
theorem scrub_pySplit2 (a b : Char) (hab : scrub [a, b] = [])
    (s : List Char) : scrubJoin (pySplit2 a b s) = scrub s := by
  induction s using pySplit2.induct a b with
  | case1 => simp [pySplit2, scrubJoin, scrub]
  | case2 c => simp [pySplit2, scrubJoin]
  | case3 c d rest h ih =>
    have hab2 := hab
    rw [scrub_cons a [b]] at hab2
    obtain ⟨ha1, hb1⟩ := List.append_eq_nil.mp hab2
    simp only [pySplit2]
    rw [if_pos h, scrubJoin_cons, ih, scrub_cons c, scrub_cons d, h.1, h.2,
      ha1, hb1]
    simp [scrub]
  | case4 c d rest h heq ih =>
    exact absurd heq (pySplit2_ne_nil a b (d :: rest))
  | case5 c d rest h t ts heq ih =>
    rw [heq, scrubJoin_cons] at ih
    simp only [pySplit2]
    rw [if_neg h, heq]
    dsimp only
    rw [scrubJoin_cons, scrub_cons c t, List.append_assoc, ih,
      ← scrub_cons c]

/-- The word step appends exactly the word's scrubbed content when the word
fits the budget (a word of length equal to the budget is "truncated" to
itself, so nothing is lost). -/
theorem stepWord_scrub (B : Int) (st : List (List Char) × List Char)
    (w : List Char) (hw : (w.length : Int) ≤ B) :
    scrubState (stepWord B st w) = scrubState st ++ scrub w := by
  unfold stepWord scrubState
  split_ifs with h1 h2 h3
  · have hB : B = (w.length : Int) := by
      rw [h2] at h1
      simp at h1
      omega
    have hslice : pySliceTo B w = w := by
      unfold pySliceTo
      rw [if_pos (by omega), hB]
      simp
    dsimp only
    rw [hslice, h2, scrubJoin_append]
    simp [scrubJoin, scrub]
  · dsimp only
    rw [scrubJoin_append]
    simp [scrubJoin, scrub_pyStrip, List.append_assoc]
  · dsimp only
    rw [h3]
    simp [scrub]
  · dsimp only
    rw [scrub_append, scrub_cons_sep ' ' (by decide)]
    simp [List.append_assoc]

/-- The word fold appends the scrubbed words in order. -/
theorem foldWords_scrub (B : Int) (ws : List (List Char))
    (hws : ∀ w ∈ ws, (w.length : Int) ≤ B) :
    ∀ st : List (List Char) × List Char,
      scrubState (ws.foldl (stepWord B) st)
        = scrubState st ++ scrubJoin ws := by
  induction ws with
  | nil =>
    intro st
    simp [scrubJoin]
  | cons w ws ih =>
    intro st
    rw [List.foldl_cons,
      ih (fun w' hw' => hws w' (List.mem_cons_of_mem _ hw')),
      stepWord_scrub B st w (hws w (List.mem_cons_self _ _)),
      scrubJoin_cons]
    simp [List.append_assoc]

/-- The sentence step appends exactly the sentence's scrubbed content. -/
theorem stepSentence_scrub (B : Int) (st : List (List Char) × List Char)
    (s : List Char) (hs : ∀ w ∈ pyWords s, (w.length : Int) ≤ B) :
    scrubState (stepSentence B st s) = scrubState st ++ scrub s := by
  unfold stepSentence
  split_ifs with h1 h2 h3
  · rw [foldWords_scrub B (pyWords s) hs st, scrub_pyWords]
  · unfold scrubState
    dsimp only
    rw [scrubJoin_append]
    simp [scrubJoin, scrub_pyStrip, List.append_assoc]
  · unfold scrubState
    dsimp only
    rw [h3]
    simp [scrub]
  · unfold scrubState
    dsimp only
    rw [scrub_append, scrub_cons_sep '.' (by decide),
      scrub_cons_sep ' ' (by decide)]
    simp [List.append_assoc]

/-- The sentence fold appends the scrubbed sentences in order. -/
theorem foldSentences_scrub (B : Int) (ss : List (List Char))
    (hss : ∀ s ∈ ss, ∀ w ∈ pyWords s, (w.length : Int) ≤ B) :
    ∀ st : List (List Char) × List Char,
      scrubState (ss.foldl (stepSentence B) st)
        = scrubState st ++ scrubJoin ss := by
  induction ss with
  | nil =>
    intro st
    simp [scrubJoin]
  | cons s ss ih =>
    intro st
    rw [List.foldl_cons,
      ih (fun s' hs' => hss s' (List.mem_cons_of_mem _ hs')),
      stepSentence_scrub B st s (hss s (List.mem_cons_self _ _)),
      scrubJoin_cons]
    simp [List.append_assoc]

/-- The paragraph step appends exactly the paragraph's scrubbed content. -/
theorem stepParagraph_scrub (B : Int) (st : List (List Char) × List Char)
    (p : List Char)
    (hp : ∀ s ∈ pySplit2 '.' ' ' p, ∀ w ∈ pyWords s, (w.length : Int) ≤ B) :
    scrubState (stepParagraph B st p) = scrubState st ++ scrub p := by
  unfold stepParagraph
  split_ifs with h1 h2 h3
  · rw [foldSentences_scrub B (pySplit2 '.' ' ' p) hp st,
      scrub_pySplit2 '.' ' ' (by decide) p]
  · unfold scrubState
    dsimp only
    rw [scrubJoin_append]
    simp [scrubJoin, scrub_pyStrip, List.append_assoc]
  · unfold scrubState
    dsimp only
    rw [h3]
    simp [scrub]
  · unfold scrubState
    dsimp only
    rw [scrub_append, scrub_cons_sep '\n' (by decide),
      scrub_cons_sep '\n' (by decide)]
    simp [List.append_assoc]

/-- The paragraph fold appends the scrubbed paragraphs in order. -/
theorem foldParagraphs_scrub (B : Int) (ps : List (List Char))
    (hps : ∀ p ∈ ps, ∀ s ∈ pySplit2 '.' ' ' p, ∀ w ∈ pyWords s,
      (w.length : Int) ≤ B) :
    ∀ st : List (List Char) × List Char,
      scrubState (ps.foldl (stepParagraph B) st)
        = scrubState st ++ scrubJoin ps := by
  induction ps with
  | nil =>
    intro st
    simp [scrubJoin]
  | cons p ps ih =>
    intro st
    rw [List.foldl_cons,
      ih (fun p' hp' => hps p' (List.mem_cons_of_mem _ hp')),
      stepParagraph_scrub B st p (hps p (List.mem_cons_self _ _)),
      scrubJoin_cons]
    simp [List.append_assoc]

/-- The final flush preserves the scrubbed state. -/
theorem finishChunks_scrub (st : List (List Char) × List Char) :
    scrubJoin (finishChunks st) = scrubState st := by
  unfold finishChunks scrubState
  split_ifs with h
  · rw [h]
    simp [scrub]
  · rw [scrubJoin_append]
    simp [scrubJoin, scrub_pyStrip]

/-- C7: chunking is lossless and order-preserving modulo the inserted or
removed separators and trimmed whitespace.  The separators (`"\n\n"`,
`". "`, `" "`) and trimmed whitespace consist of whitespace and period
characters only, so the statement erases exactly those characters
(`scrub`) and requires every remaining character of the content to be
reproduced, in order, by the concatenation of the chunks: for a positive
budget and content none of whose words exceeds the budget (so the lossy
hard-truncation never drops characters), the scrubbed concatenation of
the returned chunks equals the scrubbed content. -/
theorem C7_lossless_modulo_separators (content : List Char) (B : Int)
    (_hB : 0 < B) (hw : ∀ w ∈ allWords content, (w.length : Int) ≤ B) :
    scrubJoin (split_content_into_chunks content B none) = scrub content := by
  have hyp : ∀ p ∈ pySplit2 '\n' '\n' content,
      ∀ s ∈ pySplit2 '.' ' ' p, ∀ w ∈ pyWords s, (w.length : Int) ≤ B := by
    intro p hp s hs w hwmem
    apply hw
    unfold allWords
    rw [List.mem_flatten]
    refine ⟨((pySplit2 '.' ' ' p).map pyWords).flatten, ?_, ?_⟩
    · exact List.mem_map.mpr ⟨p, hp, rfl⟩
    · rw [List.mem_flatten]
      exact ⟨pyWords s, List.mem_map.mpr ⟨s, hs, rfl⟩, hwmem⟩
  by_cases hlen : (content.length : Int) ≤ B
  · unfold split_content_into_chunks
    rw [if_pos hlen]
    simp [scrubJoin]
  · unfold split_content_into_chunks
    rw [if_neg hlen]
    show scrubJoin (splitFallback content B) = scrub content
    unfold splitFallback
    rw [finishChunks_scrub,
      foldParagraphs_scrub B (pySplit2 '\n' '\n' content) hyp ([], []),
      scrub_pySplit2 '\n' '\n' (by decide) content]
    simp [scrubState, scrubJoin, scrub]

/-- Witness for C7 at a concrete input whose words all fit the budget. -/
theorem C7_lossless_modulo_separators_witness :
    scrubJoin (split_content_into_chunks (("aaaa bb\n\ncc").toList) 5 none)
      = scrub (("aaaa bb\n\ncc").toList) :=
  C7_lossless_modulo_separators (("aaaa bb\n\ncc").toList) 5 (by decide)
    (by decide)
